import Mathlib

set_option maxHeartbeats 1000000

/-!
Verification of the matching-and-enrichment pipeline of `lookup-go`
(`main.go`): mapping-rule parsing (`parseMapping`), the matcher engine
(`findMatch`), per-record enrichment (`processObject`) and the streaming
input protocol (`processInput`).

The embedding is shallow: Go maps (`map[string]string`,
`map[string]interface{}`) are modelled as association lists with
unique-key update (`setA`) and first-hit lookup (`lookupA`); a JSON value
(`interface{}` decoded by `encoding/json`) is the inductive `JsonVal`.
Calls into the Go standard library that `findMatch` makes
(`filepath.Match`, `regexp.MatchString`, `net.ParseIP`, `net.ParseCIDR`,
`(*net.IPNet).Contains`) are parameters collected in `GoLib`; the
theorems about scan order and error handling hold for every
instantiation, and `netDemoLib` instantiates them with an executable
model of the IPv4 fragment of the `net` package for concrete witnesses.
Strings are Unicode in Go; case folding (`strings.ToLower`) and the
whitespace classes are modelled on their ASCII fragment, which is all
the theorems and witnesses use.
-/

namespace LookupGo

/-- A JSON value as decoded by `encoding/json` into `interface{}`:
string, number, boolean, null, array or object.  (The numeric payload is
irrelevant to the pipeline, which only ever inspects whether a value is
a string; it is modelled as `Int`.) -/
inductive JsonVal where
  | str (s : String)
  | num (n : Int)
  | bool (b : Bool)
  | null
  | arr (elems : List JsonVal)
  | obj (fields : List (String × JsonVal))

/-- A decoded input record: `map[string]interface{}` as an association
list with unique keys. -/
abbrev Record := List (String × JsonVal)

/-- A reference-table row: `map[string]string` as an association list
with unique keys (`LookupData` is `[]map[string]string`). -/
abbrev Row := List (String × String)

/-- Go map read `m[k]` (with the `ok` bit): first binding of the key. -/
def lookupA {α : Type} : List (String × α) → String → Option α
  | [], _ => none
  | (k, v) :: rest, key => if k = key then some v else lookupA rest key

/-- Go map write `m[k] = v`: replace the existing binding or append a
new one.  Keys stay unique; no binding is ever removed. -/
def setA {α : Type} : List (String × α) → String → α → List (String × α)
  | [], key, val => [(key, val)]
  | (k, v) :: rest, key, val =>
      if k = key then (k, val) :: rest else (k, v) :: setA rest key val

/-- The `Matcher` struct from `config.json`: which field pair it applies
to, the matching method (`"exact"`, `"wildcard"`, `"regex"`, `"cidr"`)
and case sensitivity. -/
structure Matcher where
  inputField : String
  lookupField : String
  method : String
  caseSensitive : Bool

/-- The `Mapping` struct produced by `parseMapping` from the `-m` rule
string: input field, lookup field, and the output renaming table.  (The
Go struct has no keep-all flag; `processObject` treats an empty
`OutputMap` as keep-all.) -/
structure Mapping where
  inputField : String
  lookupField : String
  outputMap : List (String × String)

/-- The Go standard-library functions `findMatch` calls, as parameters:
`filepath.Match pattern name` and `regexp.MatchString pattern s` (each
may fail on a malformed pattern), `net.ParseIP`, `net.ParseCIDR` (the
`*net.IPNet` component) and `(*net.IPNet).Contains`. -/
structure GoLib (IP Net : Type) where
  filepathMatch : String → String → Except String Bool
  regexpMatchString : String → String → Except String Bool
  netParseIP : String → Option IP
  netParseCIDR : String → Option Net
  netContains : Net → IP → Bool

/-- ASCII fragment of `strings.ToLower` on one character (Go lowercases
the full Unicode range; the pipeline only folds `'A'`-`'Z'` on the
inputs considered here).  This is exactly `Char.toLower`: add 32 to a
code point in `[65, 90]`, keep every other character. -/
def goToLowerChar (c : Char) : Char := Char.toLower c

/-- `strings.ToLower` on a whole string (ASCII fragment). -/
def goToLower (s : String) : String := String.mk (s.data.map goToLowerChar)

/-- The `compareValue` / `compareLookupValue` computation at the top of
`findMatch`'s loop body: both sides are lowercased exactly when the
matcher is not case sensitive (`main.go` lines 282-288). -/
def compareOperands (matcher : Matcher) (value lookupValue : String) : String × String :=
  if matcher.caseSensitive then (value, lookupValue)
  else (goToLower value, goToLower lookupValue)

/-- The `switch matcher.Method` of `findMatch` (`main.go` lines
293-311), for one row, on the already-folded operands.  `some (.ok b)`
is `matched = b, err = nil`; `some (.error e)` is a pattern error from
`filepath.Match` / `regexp.MatchString`; `none` is the `default` branch
(unknown method).  In the `cidr` branch `err` is never set: a parse
failure of either side just leaves `matched = false`. -/
def evalMethod {IP Net : Type} (lib : GoLib IP Net) (method cv clv : String) :
    Option (Except String Bool) :=
  if method = "exact" then some (Except.ok (cv == clv))
  else if method = "wildcard" then some (lib.filepathMatch clv cv)
  else if method = "regex" then some (lib.regexpMatchString clv cv)
  else if method = "cidr" then
    some (Except.ok (match lib.netParseIP cv with
      | none => false
      | some ip =>
        match lib.netParseCIDR clv with
        | none => false
        | some n => lib.netContains n ip))
  else none

/-- `findMatch` (`main.go` lines 275-323): scan the rows in table order;
a row without the lookup field is skipped; on a pattern error the row is
skipped with a warning and the scan continues; on the unknown-method
`default` branch the whole lookup returns `nil` with a warning; the
first row that matches is returned at once. -/
def findMatch {IP Net : Type} (lib : GoLib IP Net) (value : String)
    (data : List Row) (matcher : Matcher) : Option Row :=
  match data with
  | [] => none
  | row :: rest =>
    match lookupA row matcher.lookupField with
    | none => findMatch lib value rest matcher
    | some lookupValue =>
      let ops := compareOperands matcher value lookupValue
      match evalMethod lib matcher.method ops.1 ops.2 with
      | none => none
      | some (Except.error _) => findMatch lib value rest matcher
      | some (Except.ok true) => some row
      | some (Except.ok false) => findMatch lib value rest matcher

/-- The per-row predicate of `findMatch`'s loop: the row has the lookup
field and the method evaluates to a real match on the folded operands. -/
def rowMatchesB {IP Net : Type} (lib : GoLib IP Net) (value : String)
    (matcher : Matcher) (row : Row) : Bool :=
  match lookupA row matcher.lookupField with
  | none => false
  | some lookupValue =>
    let ops := compareOperands matcher value lookupValue
    match evalMethod lib matcher.method ops.1 ops.2 with
    | some (Except.ok true) => true
    | _ => false

/-- The write target of one `(originalKey, value)` pair of a lookup
result in `processObject`'s output loop (`main.go` lines 260-268):
`newKey, exists := mapping.OutputMap[originalKey]`, with the fallback
`if !exists && len(OutputMap) == 0 { newKey = originalKey }`; `none`
means the pair is dropped (`exists` stays false). -/
def targetOf (mapping : Mapping) (originalKey : String) : Option String :=
  match lookupA mapping.outputMap originalKey with
  | some newKey => some newKey
  | none => if mapping.outputMap = [] then some originalKey else none

/-- One iteration of `processObject`'s output loop: write
`data[newKey] = value` when the pair has a target, else leave the record
alone. -/
def writeField (mapping : Mapping) (data : Record) (kv : String × String) : Record :=
  match targetOf mapping kv.1 with
  | some newKey => setA data newKey (JsonVal.str kv.2)
  | none => data

/-- The whole `if lookupResult != nil { for originalKey, value := range
lookupResult { ... } }` loop of `processObject` over the pairs of the
matched row. -/
def applyLookupResult (mapping : Mapping) (data : Record) (result : Row) : Record :=
  result.foldl (writeField mapping) data

/-- `processObject` (`main.go` lines 236-272) in table-lookup mode
(`isDnsLookup` false, the mode all the verified claims are about): read
the input field; if absent or not a JSON string, return the record
unchanged; otherwise run `findMatch` and, when it found a row, merge it
through the output map. -/
def processObject {IP Net : Type} (lib : GoLib IP Net) (data : Record)
    (mapping : Mapping) (lookupData : List Row) (matcher : Matcher) : Record :=
  match lookupA data mapping.inputField with
  | none => data
  | some inputValue =>
    match inputValue with
    | JsonVal.str inputValueStr =>
      match findMatch lib inputValueStr lookupData matcher with
      | none => data
      | some row => applyLookupResult mapping data row
    | _ => data

/-! ### Executable model of the IPv4 fragment of the `net` package

Used to instantiate `GoLib` for concrete witnesses and for the
case-folding invariance of the `cidr` method.  `net.ParseIP` on a
dotted-quad IPv4 literal and `net.ParseCIDR` on `a.b.c.d/k` are
modelled; IPv6 text is out of scope (no theorem depends on it). -/

/-- Decimal digit test on a character. -/
def isDigitC (c : Char) : Bool := 48 ≤ c.toNat && c.toNat ≤ 57

/-- Value of a digit run (most significant first). -/
def digitsToNat (ds : List Char) : Nat :=
  ds.foldl (fun a c => a * 10 + (c.toNat - 48)) 0

/-- Parse one decimal octet (1-3 digits, value at most 255) off the
front of the text; return its value and the rest. -/
def parseOctet (cs : List Char) : Option (Nat × List Char) :=
  if cs.takeWhile isDigitC = [] then none
  else if 3 < (cs.takeWhile isDigitC).length then none
  else if 255 < digitsToNat (cs.takeWhile isDigitC) then none
  else some (digitsToNat (cs.takeWhile isDigitC), cs.dropWhile isDigitC)

/-- Consume one `'.'` separator. -/
def expectDot (cs : List Char) : Option (List Char) :=
  match cs with
  | [] => none
  | c :: r => if c = '.' then some r else none

/-- `net.ParseIP` on dotted-quad IPv4 text: four octets separated by
`'.'`, nothing left over; the address as a 32-bit number. -/
def parseIPv4 (cs : List Char) : Option Nat :=
  match parseOctet cs with
  | none => none
  | some (a, r1) =>
    match expectDot r1 with
    | none => none
    | some r2 =>
      match parseOctet r2 with
      | none => none
      | some (b, r3) =>
        match expectDot r3 with
        | none => none
        | some r4 =>
          match parseOctet r4 with
          | none => none
          | some (c, r5) =>
            match expectDot r5 with
            | none => none
            | some r6 =>
              match parseOctet r6 with
              | none => none
              | some (d, r7) =>
                if r7 = [] then some (((a * 256 + b) * 256 + c) * 256 + d) else none

/-- The prefix length after the `'/'` of a CIDR block: a nonempty digit
run consuming the whole rest, value at most 32. -/
def parseMaskLen (cs : List Char) : Option Nat :=
  if cs.takeWhile isDigitC = [] then none
  else if cs.dropWhile isDigitC ≠ [] then none
  else if 32 < digitsToNat (cs.takeWhile isDigitC) then none
  else some (digitsToNat (cs.takeWhile isDigitC))

/-- Slash test for the CIDR split. -/
def isSlash (c : Char) : Bool := c = '/'

/-- `net.ParseCIDR` on IPv4 text `a.b.c.d/k`: split at the first `'/'`,
parse both parts; the network is kept as (address, prefix length). -/
def parseCIDRv4 (cs : List Char) : Option (Nat × Nat) :=
  match cs.dropWhile (fun c => !isSlash c) with
  | [] => none
  | _ :: maskPart =>
    match parseIPv4 (cs.takeWhile (fun c => !isSlash c)) with
    | none => none
    | some a =>
      match parseMaskLen maskPart with
      | none => none
      | some k => some (a, k)

/-- `(*net.IPNet).Contains`: the address agrees with the network on the
top `k` bits. -/
def cidrContains (n : Nat × Nat) (ip : Nat) : Bool :=
  ip / 2 ^ (32 - n.2) = n.1 / 2 ^ (32 - n.2)

/-- A concrete `GoLib` instantiation for witnesses: the honest IPv4
model above for the `net` functions; `filepath.Match` and
`regexp.MatchString` modelled at the inputs the witnesses use — a
literal pattern matches by equality, and the malformed patterns `"["`
(unclosed character class) and `"("` (unclosed group) fail exactly as
they do in Go. -/
def netDemoLib : GoLib Nat (Nat × Nat) where
  filepathMatch pattern name :=
    if pattern = "[" then Except.error "syntax error in pattern"
    else Except.ok (pattern == name)
  regexpMatchString pattern s :=
    if pattern = "(" then Except.error "error parsing regexp: missing closing )"
    else Except.ok (pattern == s)
  netParseIP s := parseIPv4 s.data
  netParseCIDR s := parseCIDRv4 s.data
  netContains := cidrContains

/-! ### The mapping-rule parser

`parseMapping` matches the rule string against the anchored Go regular
expression `^(\S+)\s+as\s+(\S+)(\s+OUTPUT\s+(.*))?$` and then splits the
captured OUTPUT items.  The regex is hand-compiled below: because `\S+`
cannot cross whitespace and each `\s+` run is followed by a
non-whitespace literal, every quantifier's extent is forced, so the
match is computed by alternating maximal `takeWhile` runs; `(.*)` cannot
contain a newline (`.` does not match `'\n'`). -/

/-- The RE2 character class `\s` (`[\t\n\f\r ]`). -/
def reIsSpace (c : Char) : Bool :=
  c = '\t' || c = '\n' || c = '\x0c' || c = '\r' || c = ' '

/-- `unicode.IsSpace` on ASCII (`strings.TrimSpace` / `bytes.TrimSpace`):
`\s` plus vertical tab. -/
def goIsSpace (c : Char) : Bool := reIsSpace c || c = '\x0b'

/-- `TrimSpace`: drop leading and trailing whitespace. -/
def goTrim (cs : List Char) : List Char :=
  ((cs.dropWhile goIsSpace).reverse.dropWhile goIsSpace).reverse

/-- `strings.Split` on `','`: all tokens, empty ones included. -/
def splitOnComma (cs : List Char) : List (List Char) :=
  match cs with
  | [] => [[]]
  | ',' :: rest =>
    [] :: splitOnComma rest
  | c :: rest =>
    match splitOnComma rest with
    | [] => [[c]]
    | t :: ts => (c :: t) :: ts

/-- Try to match `\s+as\s+` at the start of the text; on success return
what follows the match (both whitespace runs are maximal, which is the
only extent the regex engine can take here). -/
def matchAsAt (cs : List Char) : Option (List Char) :=
  let s1 := cs.takeWhile reIsSpace
  let r1 := cs.dropWhile reIsSpace
  if s1 = [] then none
  else
    match r1 with
    | 'a' :: 's' :: r2 =>
      let s2 := r2.takeWhile reIsSpace
      let r3 := r2.dropWhile reIsSpace
      if s2 = [] then none else some r3
    | _ => none

/-- `regexp.MustCompile("\s+as\s+").Split(pair, 2)`: split around the
leftmost match of `\s+as\s+`, keeping the rest whole.  `acc` is the
reversed prefix scanned so far. -/
def splitAsAux (acc cs : List Char) : Option (List Char × List Char) :=
  match matchAsAt cs with
  | some rest => some (acc.reverse, rest)
  | none =>
    match cs with
    | [] => none
    | c :: cs' => splitAsAux (c :: acc) cs'

/-- Split an OUTPUT item at its first ` as ` separator, if any. -/
def splitAs (cs : List Char) : Option (List Char × List Char) := splitAsAux [] cs

/-- The loop over `strings.Split(matches[4], ",")`: trim each item, skip
empty ones, split at ` as ` (`source → target`, or identity when there
is no ` as `); a Go map assignment means a later duplicate source
overwrites an earlier one. -/
def buildOutputMap (spec : List Char) : List (String × String) :=
  if spec = [] then []
  else
    (splitOnComma spec).foldl
      (fun acc pairRaw =>
        let pair := goTrim pairRaw
        if pair = [] then acc
        else
          match splitAs pair with
          | some (src, tgt) =>
            setA acc (String.mk (goTrim src)) (String.mk (goTrim tgt))
          | none => setA acc (String.mk pair) (String.mk pair))
      []

/-- The optional group `(\s+OUTPUT\s+(.*))?$` against the remainder
after the second field: empty remainder means the clause is absent
(capture `""`); otherwise the whole remainder must be whitespace,
`OUTPUT`, whitespace, then a newline-free capture. -/
def parseOutputClause (cs : List Char) : Option (List Char) :=
  match cs with
  | [] => some []
  | _ =>
    let s1 := cs.takeWhile reIsSpace
    let r1 := cs.dropWhile reIsSpace
    if s1 = [] then none
    else
      match r1 with
      | 'O' :: 'U' :: 'T' :: 'P' :: 'U' :: 'T' :: r2 =>
        let s2 := r2.takeWhile reIsSpace
        let r3 := r2.dropWhile reIsSpace
        if s2 = [] then none
        else if r3.contains '\n' then none
        else some r3
      | _ => none

/-- `parseMapping` (`main.go` lines 407-434): match the rule string
against `^(\S+)\s+as\s+(\S+)(\s+OUTPUT\s+(.*))?$` (`none` is the
`invalid mapping format` error) and build the output table from the
captured item list; an absent clause and an empty capture both leave the
output table empty — the parsed `Mapping` records no flag telling the
two apart. -/
def parseMapping (m : String) : Option Mapping :=
  let cs := m.data
  let t1 := cs.takeWhile (fun c => !reIsSpace c)
  let r1 := cs.dropWhile (fun c => !reIsSpace c)
  if t1 = [] then none
  else
    match matchAsAt r1 with
    | none => none
    | some r2 =>
      let t2 := r2.takeWhile (fun c => !reIsSpace c)
      let r3 := r2.dropWhile (fun c => !reIsSpace c)
      if t2 = [] then none
      else
        match parseOutputClause r3 with
        | none => none
        | some spec =>
          some { inputField := String.mk t1, lookupField := String.mk t2,
                 outputMap := buildOutputMap spec }

/-! ### The stream processor

`processInput` (`main.go` lines 180-233) fully buffers standard input,
looks at the first byte after trimming, and either parses the whole
input as one JSON array (a parse failure is fatal) or scans it line by
line, skipping blank lines and dropping, with a warning, each line that
fails to parse as a JSON object.  The `encoding/json` entry points and
the two serializers are parameters; warnings counted are the
line-parse warnings this function logs itself. -/

/-- How `processInput` classifies the buffered input: empty after
trimming (return at once), array mode, or line mode. -/
inductive InputMode where
  | empty
  | array
  | line
  deriving DecidableEq

/-- The mode selection of `processInput`. -/
def detectMode (input : String) : InputMode :=
  let trimmed := goTrim input.data
  match trimmed with
  | [] => InputMode.empty
  | '[' :: _ => InputMode.array
  | _ => InputMode.line

/-- Outcome of a `processInput` run: the emitted output blobs and the
number of dropped-line warnings, or a fatal abort (`log.Fatalf`). -/
inductive RunResult where
  | ok (outputs : List String) (warnings : Nat)
  | fatal

/-- `bufio.ScanLines` token list: split at `'\n'`, drop one trailing
`'\r'` per token, and do not emit the empty token a trailing newline
would leave. -/
def splitNewline (cs : List Char) : List (List Char) :=
  match cs with
  | [] => [[]]
  | '\n' :: rest => [] :: splitNewline rest
  | c :: rest =>
    match splitNewline rest with
    | [] => [[c]]
    | t :: ts => (c :: t) :: ts

/-- Drop one trailing carriage return, as `bufio.ScanLines` does. -/
def dropCR (cs : List Char) : List Char :=
  match cs.reverse with
  | '\r' :: rest => rest.reverse
  | _ => cs

/-- The lines the `bufio.Scanner` yields on the buffered input. -/
def goScanLines (input : String) : List String :=
  let toks := splitNewline input.data
  let toks := if input.data.getLast? = some '\n' then toks.dropLast else toks
  toks.map (fun t => String.mk (dropCR t))

/-- The line-mode loop of `processInput`: skip blank lines; a line that
fails to parse is dropped with a warning; a line that parses is
processed and serialized immediately.  `jsonParse` is
`json.Unmarshal` into `map[string]interface{}`, `ser` is the compact
`json.Marshal` of `printJSON`, `proc` is `processObject` with the run's
rule, table and matcher. -/
def processLines (jsonParse : String → Option Record) (ser : Record → String)
    (proc : Record → Record) (lines : List String) : List String × Nat :=
  match lines with
  | [] => ([], 0)
  | l :: rest =>
    if goTrim l.data = [] then processLines jsonParse ser proc rest
    else
      match jsonParse l with
      | none =>
        let r := processLines jsonParse ser proc rest
        (r.1, r.2 + 1)
      | some data =>
        let r := processLines jsonParse ser proc rest
        (ser (proc data) :: r.1, r.2)

/-- `processInput`: trim the buffered input; if nothing is left, return
with no output; if the first byte is `'['`, parse the whole trimmed
input as an array of objects (fatal on failure), process every element
and emit one pretty-printed blob; otherwise scan the original input
line by line.  `jsonParseArr` is `json.Unmarshal` into
`[]map[string]interface{}` and `serArr` is `json.MarshalIndent`. -/
def processInput (jsonParse : String → Option Record)
    (jsonParseArr : String → Option (List Record))
    (ser : Record → String) (serArr : List Record → String)
    (proc : Record → Record) (input : String) : RunResult :=
  let trimmed := goTrim input.data
  match trimmed with
  | [] => RunResult.ok [] 0
  | '[' :: _ =>
    match jsonParseArr (String.mk trimmed) with
    | none => RunResult.fatal
    | some dataArray => RunResult.ok [serArr (dataArray.map proc)] 0
  | _ =>
    let r := processLines jsonParse ser proc (goScanLines input)
    RunResult.ok r.1 r.2

/-! ### Association-list lemmas -/

theorem lookupA_setA_self {α : Type} (l : List (String × α)) (k : String) (v : α) :
    lookupA (setA l k v) k = some v := by
  induction l with
  | nil => simp [setA, lookupA]
  | cons hd tl ih =>
    obtain ⟨k', v'⟩ := hd
    by_cases h : k' = k
    · simp [setA, lookupA, h]
    · simp [setA, lookupA, h, ih]

theorem lookupA_setA_ne {α : Type} (l : List (String × α)) (k k' : String) (v : α)
    (h : k' ≠ k) : lookupA (setA l k v) k' = lookupA l k' := by
  have hne : ¬ k = k' := fun hh => h hh.symm
  induction l with
  | nil => simp [setA, lookupA, hne]
  | cons hd tl ih =>
    obtain ⟨k₀, v₀⟩ := hd
    by_cases h₀ : k₀ = k
    · subst h₀
      simp [setA, lookupA, hne]
    · simp only [setA, if_neg h₀]
      by_cases h₁ : k₀ = k'
      · simp [lookupA, h₁]
      · simp [lookupA, h₁, ih]

theorem lookupA_setA_isSome {α : Type} (l : List (String × α)) (k k' : String) (v : α)
    (h : (lookupA l k').isSome) : (lookupA (setA l k v) k').isSome := by
  by_cases hk : k' = k
  · subst hk; simp [lookupA_setA_self]
  · rw [lookupA_setA_ne l k k' v hk]; exact h

/-! ### First-match lemmas for `List.find?` -/

theorem find?_first {α : Type} (p : α → Bool) (l₁ l₂ : List α) (r : α)
    (h₁ : ∀ x ∈ l₁, p x = false) (hr : p r = true) :
    (l₁ ++ r :: l₂).find? p = some r := by
  induction l₁ with
  | nil => simp [List.find?, hr]
  | cons hd tl ih =>
    have hhd : p hd = false := h₁ hd (by simp)
    simp only [List.cons_append, List.find?, hhd]
    exact ih (fun x hx => h₁ x (by simp [hx]))

/-- The unknown-method `default` branch depends only on the method
string, not on the operands. -/
theorem evalMethod_none_stable {IP Net : Type} (lib : GoLib IP Net)
    (method a b a' b' : String) (h : evalMethod lib method a b = none) :
    evalMethod lib method a' b' = none := by
  unfold evalMethod at h ⊢
  split_ifs at h ⊢
  all_goals simp_all

/-- `findMatch` computes `List.find?` of its per-row predicate: the scan
is a linear, order-preserving, first-match-wins search. -/
theorem findMatch_eq_find? {IP Net : Type} (lib : GoLib IP Net) (value : String)
    (data : List Row) (matcher : Matcher) :
    findMatch lib value data matcher = data.find? (rowMatchesB lib value matcher) := by
  induction data with
  | nil => rfl
  | cons row rest ih =>
    rw [findMatch]
    cases hl : lookupA row matcher.lookupField with
    | none =>
      have hrow : rowMatchesB lib value matcher row = false := by
        simp [rowMatchesB, hl]
      simp [List.find?, hrow, ih]
    | some lookupValue =>
      cases he : evalMethod lib matcher.method
          (compareOperands matcher value lookupValue).1
          (compareOperands matcher value lookupValue).2 with
      | none =>
        have hrow : rowMatchesB lib value matcher row = false := by
          simp [rowMatchesB, hl, he]
        simp only [he, List.find?, hrow]
        symm
        rw [List.find?_eq_none]
        intro x hx
        simp only [rowMatchesB]
        cases hx' : lookupA x matcher.lookupField with
        | none => simp
        | some lv' =>
          have := evalMethod_none_stable lib matcher.method _ _
            (compareOperands matcher value lv').1
            (compareOperands matcher value lv').2 he
          simp [this]
      | some res =>
        cases res with
        | error e =>
          have hrow : rowMatchesB lib value matcher row = false := by
            simp [rowMatchesB, hl, he]
          simp [he, List.find?, hrow, ih]
        | ok b =>
          cases b with
          | true =>
            have hrow : rowMatchesB lib value matcher row = true := by
              simp [rowMatchesB, hl, he]
            simp [he, List.find?, hrow]
          | false =>
            have hrow : rowMatchesB lib value matcher row = false := by
              simp [rowMatchesB, hl, he]
            simp [he, List.find?, hrow, ih]

/-- **C1.** `findMatch` scans the rows in table order and returns the
first row whose lookup-field value matches under the matcher's method on
the case-folded operands: it equals `List.find?` of the per-row
predicate; for the exact method that predicate is equality of the folded
lookup-field value with the folded input value; and when a prefix has no
match and row `r` matches, `r` is returned whatever rows follow it —
rows after the first match are never examined. -/
theorem findMatch_first_row {IP Net : Type} (lib : GoLib IP Net)
    (value : String) (matcher : Matcher) (l₁ l₂ : List Row) (r : Row)
    (hpre : ∀ r' ∈ l₁, rowMatchesB lib value matcher r' = false)
    (hr : rowMatchesB lib value matcher r = true) :
    (∀ data : List Row, findMatch lib value data matcher
        = data.find? (rowMatchesB lib value matcher))
    ∧ (matcher.method = "exact" → ∀ row : Row,
        (rowMatchesB lib value matcher row = true ↔
          ∃ lv, lookupA row matcher.lookupField = some lv ∧
            (compareOperands matcher value lv).1 = (compareOperands matcher value lv).2))
    ∧ findMatch lib value (l₁ ++ r :: l₂) matcher = some r
    ∧ (∀ l₂' : List Row, findMatch lib value (l₁ ++ r :: l₂') matcher = some r) := by
  refine ⟨fun data => findMatch_eq_find? lib value data matcher, ?_, ?_, ?_⟩
  · intro hex row
    simp only [rowMatchesB, evalMethod, hex, if_pos]
    cases hl : lookupA row matcher.lookupField with
    | none => simp
    | some lv =>
      constructor
      · intro h
        refine ⟨lv, rfl, ?_⟩
        by_contra hne
        simp [beq_eq_false_iff_ne.mpr hne] at h
      · rintro ⟨lv', hlv', heq⟩
        obtain rfl : lv' = lv := by simpa using hlv'.symm
        simp [heq]
  · rw [findMatch_eq_find?]
    exact find?_first _ l₁ l₂ r hpre hr
  · intro l₂'
    rw [findMatch_eq_find?]
    exact find?_first _ l₁ l₂' r hpre hr

/-- Witness for C1: a case-insensitive exact lookup of `"JDOE"` in a
table whose second and third rows both carry `"jdoe"` returns the second
row — the first match in file order, not the later duplicate. -/
theorem findMatch_first_row_witness :
    findMatch netDemoLib "JDOE"
      [[("username", "smith")], [("username", "jdoe")], [("username", "jdoe")]]
      ⟨"user", "username", "exact", false⟩ = some [("username", "jdoe")] :=
  (findMatch_first_row netDemoLib "JDOE" ⟨"user", "username", "exact", false⟩
    [[("username", "smith")]] [[("username", "jdoe")]] [("username", "jdoe")]
    (by decide) (by decide)).2.2.1

/-- **C7.** When the record's input field is absent, or present with a
non-string JSON value, `processObject` returns the record unchanged: no
lookup happens, nothing is added or modified. -/
theorem processObject_passthrough {IP Net : Type} (lib : GoLib IP Net)
    (data : Record) (mapping : Mapping) (lookupData : List Row) (matcher : Matcher)
    (h : lookupA data mapping.inputField = none
       ∨ ∃ v, lookupA data mapping.inputField = some v ∧ ∀ s, v ≠ JsonVal.str s) :
    processObject lib data mapping lookupData matcher = data := by
  rcases h with h | ⟨v, hv, hns⟩
  · simp [processObject, h]
  · rw [processObject, hv]
    cases v with
    | str s => exact absurd rfl (hns s)
    | num n => rfl
    | bool b => rfl
    | null => rfl
    | arr e => rfl
    | obj f => rfl

/-- Witness for C7: enriching `{"x": 5}` with a rule on `"x"` returns
the record unchanged (the spec's own example). -/
theorem processObject_passthrough_witness :
    processObject netDemoLib [("x", JsonVal.num 5)] ⟨"x", "id", []⟩
      [[("id", "5")]] ⟨"x", "id", "exact", false⟩ = [("x", JsonVal.num 5)] :=
  processObject_passthrough netDemoLib [("x", JsonVal.num 5)] ⟨"x", "id", []⟩
    [[("id", "5")]] ⟨"x", "id", "exact", false⟩
    (Or.inr ⟨JsonVal.num 5, rfl, fun _ h => JsonVal.noConfusion h⟩)

/-! ### Characterizing the output loop of `processObject` -/

/-- The value the output loop writes last into field `f` while walking
`result` in iteration order, if any pair targets `f` at all. -/
def lastWrite (mapping : Mapping) (f : String) (result : Row) : Option String :=
  (result.reverse.find? (fun kv => targetOf mapping kv.1 == some f)).map Prod.snd

theorem writeField_lookupA_ne (mapping : Mapping) (data : Record)
    (kv : String × String) (f : String) (h : targetOf mapping kv.1 ≠ some f) :
    lookupA (writeField mapping data kv) f = lookupA data f := by
  rw [writeField]
  cases ht : targetOf mapping kv.1 with
  | none => rfl
  | some nk =>
    have : f ≠ nk := fun hf => h (by rw [ht, hf])
    exact lookupA_setA_ne data nk f _ this

/-- After the whole output loop, field `f` holds the last value written
to it, and keeps its old content when no pair targets it. -/
theorem lookupA_applyLookupResult (mapping : Mapping) (data : Record)
    (result : Row) (f : String) :
    lookupA (applyLookupResult mapping data result) f =
      match lastWrite mapping f result with
      | some v => some (JsonVal.str v)
      | none => lookupA data f := by
  induction result generalizing data with
  | nil => simp [applyLookupResult, lastWrite]
  | cons kv rest ih =>
    have hfold : applyLookupResult mapping data (kv :: rest)
        = applyLookupResult mapping (writeField mapping data kv) rest := by
      simp [applyLookupResult]
    rw [hfold, ih]
    have hlw : lastWrite mapping f (kv :: rest)
        = (lastWrite mapping f rest).or
            (if targetOf mapping kv.1 == some f then some kv.2 else none) := by
      simp only [lastWrite, List.reverse_cons, List.find?_append]
      cases hfind : List.find? (fun kv => targetOf mapping kv.1 == some f) rest.reverse with
      | none =>
        by_cases ht : targetOf mapping kv.1 == some f
        · simp [List.find?, ht, hfind]
        · simp [List.find?, ht, hfind]
      | some kv' => simp [hfind]
    rw [hlw]
    cases hrest : lastWrite mapping f rest with
    | some v => simp [Option.or]
    | none =>
      simp only [Option.or]
      by_cases ht : targetOf mapping kv.1 == some f
      · simp only [if_pos ht]
        have : targetOf mapping kv.1 = some f := by simpa using ht
        rw [writeField, this]
        exact lookupA_setA_self data f _
      · simp only [if_neg ht]
        exact writeField_lookupA_ne mapping data kv f (by simpa using ht)

/-- Keys of a Go map image are unique. -/
def keysNodup {α : Type} (l : List (String × α)) : Prop := (l.map Prod.fst).Nodup

instance {α : Type} (l : List (String × α)) : Decidable (keysNodup l) := by
  unfold keysNodup; infer_instance

theorem find?_unique_mem {α : Type} (p : α → Bool) (l : List α) (a : α)
    (hmem : a ∈ l) (ha : p a = true) (huniq : ∀ b ∈ l, p b = true → b = a) :
    l.find? p = some a := by
  induction l with
  | nil => cases hmem
  | cons hd tl ih =>
    by_cases hp : p hd = true
    · have : hd = a := huniq hd (by simp) hp
      subst this
      simp [List.find?, hp]
    · have hm : a ∈ tl := by
        rcases List.mem_cons.mp hmem with h | h
        · exact absurd (h ▸ ha) hp
        · exact h
      simp only [List.find?, Bool.not_eq_true] at hp ⊢
      rw [hp]
      exact ih hm (fun b hb hpb => huniq b (by simp [hb]) hpb)

theorem keysNodup_value_unique {α : Type} (l : List (String × α)) (k : String)
    (v v' : α) (hnd : keysNodup l) (h : (k, v) ∈ l) (h' : (k, v') ∈ l) : v = v' := by
  induction l with
  | nil => cases h
  | cons hd tl ih =>
    have hnd' : keysNodup tl := (List.nodup_cons.mp hnd).2
    rcases List.mem_cons.mp h with rfl | hmem
    · rcases List.mem_cons.mp h' with heq | hmem'
      · exact congrArg Prod.snd heq.symm
      · exact absurd (List.mem_map_of_mem Prod.fst hmem')
          (by simpa [keysNodup] using (List.nodup_cons.mp hnd).1)
    · rcases List.mem_cons.mp h' with rfl | hmem'
      · exact absurd (List.mem_map_of_mem Prod.fst hmem)
          (by simpa [keysNodup] using (List.nodup_cons.mp hnd).1)
      · exact ih hnd' hmem hmem'

/-- With an empty output table, every pair targets its own key. -/
theorem targetOf_empty (mapping : Mapping) (h : mapping.outputMap = [])
    (k : String) : targetOf mapping k = some k := by
  simp [targetOf, h, lookupA]

/-- With an empty output table the loop writes every pair of the result
under its own key (the keep-all behavior `processObject` gives a rule
whose `OutputMap` is empty). -/
theorem applyLookupResult_keepall (mapping : Mapping) (hempty : mapping.outputMap = [])
    (data : Record) (result : Row) (k v : String)
    (hnd : keysNodup result) (hmem : (k, v) ∈ result) :
    lookupA (applyLookupResult mapping data result) k = some (JsonVal.str v) := by
  rw [lookupA_applyLookupResult]
  have hfind : lastWrite mapping k result = some v := by
    unfold lastWrite
    rw [find?_unique_mem _ _ (k, v) (List.mem_reverse.mpr hmem)
      (by simp [targetOf_empty mapping hempty])
      ?_]
    · rfl
    · intro b hb hpb
      obtain ⟨bk, bv⟩ := b
      have : bk = k := by simpa [targetOf_empty mapping hempty] using hpb
      subst this
      have := keysNodup_value_unique result bk bv v hnd
        (List.mem_reverse.mp hb) hmem
      simp [this]
  rw [hfind]

/-- **C2.** The output loop of `processObject` writes each
`(key, value)` of the lookup result as follows: with an empty output
table (the keep-all case — the Go struct has no flag, `processObject`
tests `len(OutputMap) == 0`) every pair is written under its own key,
overwriting any existing record field of that name; with a non-empty
output table a pair is written only when its key has an entry, under the
renamed key, and a pair whose key is absent contributes nothing at all
to the result. -/
theorem applyLookupResult_writes (mapping : Mapping) (data : Record) (result : Row)
    (hnd : keysNodup result) :
    (∀ k v, (k, v) ∈ result → mapping.outputMap = [] →
       lookupA (applyLookupResult mapping data result) k = some (JsonVal.str v))
    ∧ (∀ k v nk, (k, v) ∈ result → lookupA mapping.outputMap k = some nk →
         (∀ p ∈ result, p.1 ≠ k → targetOf mapping p.1 ≠ some nk) →
         lookupA (applyLookupResult mapping data result) nk = some (JsonVal.str v))
    ∧ (∀ l₁ k v l₂, result = l₁ ++ (k, v) :: l₂ → mapping.outputMap ≠ [] →
         lookupA mapping.outputMap k = none →
         applyLookupResult mapping data result = applyLookupResult mapping data (l₁ ++ l₂)) := by
  refine ⟨?_, ?_, ?_⟩
  · intro k v hmem hempty
    exact applyLookupResult_keepall mapping hempty data result k v hnd hmem
  · intro k v nk hmem hnk huniq
    rw [lookupA_applyLookupResult]
    have htk : targetOf mapping k = some nk := by simp [targetOf, hnk]
    have hfind : lastWrite mapping nk result = some v := by
      unfold lastWrite
      rw [find?_unique_mem _ _ (k, v) (List.mem_reverse.mpr hmem) (by simp [htk]) ?_]
      · rfl
      · intro b hb hpb
        obtain ⟨bk, bv⟩ := b
        have hbt : targetOf mapping bk = some nk := by simpa using hpb
        by_cases hbk : bk = k
        · subst hbk
          have := keysNodup_value_unique result bk bv v hnd
            (List.mem_reverse.mp hb) hmem
          simp [this]
        · exact absurd hbt (huniq (bk, bv) (List.mem_reverse.mp hb) hbk)
    rw [hfind]
  · intro l₁ k v l₂ hres hne hmiss
    subst hres
    have ht : targetOf mapping k = none := by simp [targetOf, hmiss, hne]
    unfold applyLookupResult
    rw [List.foldl_append, List.foldl_append, List.foldl_cons]
    have : writeField mapping (List.foldl (writeField mapping) data l₁) (k, v)
        = List.foldl (writeField mapping) data l₁ := by
      rw [writeField, ht]
    rw [this]

/-- Witness for C2, on the spec's own example: with
`output_map = {role ↦ r}` and matched row
`{role: Manager, dept: Sales}`, the record gains `r = "Manager"`, the
`dept` pair contributes nothing, and with an omitted OUTPUT clause
(empty table) `dept = "Sales"` is added verbatim. -/
theorem applyLookupResult_writes_witness :
    lookupA (applyLookupResult ⟨"user", "username", [("role", "r")]⟩
        [("user", JsonVal.str "JDOE")] [("role", "Manager"), ("dept", "Sales")]) "r"
      = some (JsonVal.str "Manager")
    ∧ applyLookupResult ⟨"user", "username", [("role", "r")]⟩
        [("user", JsonVal.str "JDOE")] [("role", "Manager"), ("dept", "Sales")]
      = applyLookupResult ⟨"user", "username", [("role", "r")]⟩
        [("user", JsonVal.str "JDOE")] [("role", "Manager")]
    ∧ lookupA (applyLookupResult ⟨"user", "username", []⟩
        [("user", JsonVal.str "JDOE")] [("role", "Manager"), ("dept", "Sales")]) "dept"
      = some (JsonVal.str "Sales") := by
  refine ⟨?_, ?_, ?_⟩
  · exact (applyLookupResult_writes ⟨"user", "username", [("role", "r")]⟩
      [("user", JsonVal.str "JDOE")] [("role", "Manager"), ("dept", "Sales")]
      (by decide)).2.1 "role" "Manager" "r" (by decide) (by decide) (by decide)
  · exact (applyLookupResult_writes ⟨"user", "username", [("role", "r")]⟩
      [("user", JsonVal.str "JDOE")] [("role", "Manager"), ("dept", "Sales")]
      (by decide)).2.2 [("role", "Manager")] "dept" "Sales" [] (by decide)
      (by decide) (by decide)
  · exact (applyLookupResult_writes ⟨"user", "username", []⟩
      [("user", JsonVal.str "JDOE")] [("role", "Manager"), ("dept", "Sales")]
      (by decide)).1 "dept" "Sales" (by decide) (by decide)

/-! Reduction lemmas for the branches of `processObject`. -/

theorem processObject_no_field {IP Net : Type} (lib : GoLib IP Net) (data : Record)
    (mapping : Mapping) (lookupData : List Row) (matcher : Matcher)
    (h : lookupA data mapping.inputField = none) :
    processObject lib data mapping lookupData matcher = data := by
  simp [processObject, h]

theorem processObject_non_string {IP Net : Type} (lib : GoLib IP Net) (data : Record)
    (mapping : Mapping) (lookupData : List Row) (matcher : Matcher) (v : JsonVal)
    (hin : lookupA data mapping.inputField = some v) (hv : ∀ s, v ≠ JsonVal.str s) :
    processObject lib data mapping lookupData matcher = data := by
  cases v with
  | str s => exact absurd rfl (hv s)
  | num n => simp [processObject, hin]
  | bool b => simp [processObject, hin]
  | null => simp [processObject, hin]
  | arr e => simp [processObject, hin]
  | obj fs => simp [processObject, hin]

theorem processObject_no_match {IP Net : Type} (lib : GoLib IP Net) (data : Record)
    (mapping : Mapping) (lookupData : List Row) (matcher : Matcher) (s : String)
    (hin : lookupA data mapping.inputField = some (JsonVal.str s))
    (hfm : findMatch lib s lookupData matcher = none) :
    processObject lib data mapping lookupData matcher = data := by
  simp [processObject, hin, hfm]

theorem processObject_match {IP Net : Type} (lib : GoLib IP Net) (data : Record)
    (mapping : Mapping) (lookupData : List Row) (matcher : Matcher) (s : String)
    (row : Row) (hin : lookupA data mapping.inputField = some (JsonVal.str s))
    (hfm : findMatch lib s lookupData matcher = some row) :
    processObject lib data mapping lookupData matcher = applyLookupResult mapping data row := by
  simp [processObject, hin, hfm]

/-- **C9.** Enrichment only touches the keys the output loop writes:
any field that is not a write target of any pair of any reference row
keeps exactly its original value, and a field present before enrichment
is still present afterwards — no field is ever removed. -/
theorem processObject_frame {IP Net : Type} (lib : GoLib IP Net) (data : Record)
    (mapping : Mapping) (lookupData : List Row) (matcher : Matcher) :
    (∀ f : String,
       (∀ row ∈ lookupData, ∀ kv ∈ row, targetOf mapping kv.1 ≠ some f) →
       lookupA (processObject lib data mapping lookupData matcher) f = lookupA data f)
    ∧ (∀ f : String, (lookupA data f).isSome →
       (lookupA (processObject lib data mapping lookupData matcher) f).isSome) := by
  constructor
  · intro f hf
    cases hin : lookupA data mapping.inputField with
    | none => rw [processObject_no_field lib data mapping lookupData matcher hin]
    | some v =>
      cases hstr : v with
      | str s =>
        cases hfm : findMatch lib s lookupData matcher with
        | none =>
          rw [processObject_no_match lib data mapping lookupData matcher s
            (hstr ▸ hin) hfm]
        | some row =>
          have hrowmem : row ∈ lookupData := by
            rw [findMatch_eq_find?] at hfm
            exact List.mem_of_find?_eq_some hfm
          rw [processObject_match lib data mapping lookupData matcher s row
            (hstr ▸ hin) hfm]
          rw [lookupA_applyLookupResult]
          have hlw : lastWrite mapping f row = none := by
            unfold lastWrite
            rw [List.find?_eq_none.mpr ?_]
            · rfl
            · intro kv hkv
              simpa using hf row hrowmem kv (List.mem_reverse.mp hkv)
          rw [hlw]
      | num n =>
        rw [processObject_non_string lib data mapping lookupData matcher v hin
          (by intro s hs; rw [hstr] at hs; exact JsonVal.noConfusion hs)]
      | bool b =>
        rw [processObject_non_string lib data mapping lookupData matcher v hin
          (by intro s hs; rw [hstr] at hs; exact JsonVal.noConfusion hs)]
      | null =>
        rw [processObject_non_string lib data mapping lookupData matcher v hin
          (by intro s hs; rw [hstr] at hs; exact JsonVal.noConfusion hs)]
      | arr e =>
        rw [processObject_non_string lib data mapping lookupData matcher v hin
          (by intro s hs; rw [hstr] at hs; exact JsonVal.noConfusion hs)]
      | obj fs =>
        rw [processObject_non_string lib data mapping lookupData matcher v hin
          (by intro s hs; rw [hstr] at hs; exact JsonVal.noConfusion hs)]
  · intro f hsome
    cases hin : lookupA data mapping.inputField with
    | none => rw [processObject_no_field lib data mapping lookupData matcher hin]; exact hsome
    | some v =>
      cases hstr : v with
      | str s =>
        cases hfm : findMatch lib s lookupData matcher with
        | none =>
          rw [processObject_no_match lib data mapping lookupData matcher s
            (hstr ▸ hin) hfm]
          exact hsome
        | some row =>
          rw [processObject_match lib data mapping lookupData matcher s row
            (hstr ▸ hin) hfm]
          rw [lookupA_applyLookupResult]
          cases hlw : lastWrite mapping f row with
          | some w => simp
          | none => exact hsome
      | num n =>
        rw [processObject_non_string lib data mapping lookupData matcher v hin
          (by intro s hs; rw [hstr] at hs; exact JsonVal.noConfusion hs)]
        exact hsome
      | bool b =>
        rw [processObject_non_string lib data mapping lookupData matcher v hin
          (by intro s hs; rw [hstr] at hs; exact JsonVal.noConfusion hs)]
        exact hsome
      | null =>
        rw [processObject_non_string lib data mapping lookupData matcher v hin
          (by intro s hs; rw [hstr] at hs; exact JsonVal.noConfusion hs)]
        exact hsome
      | arr e =>
        rw [processObject_non_string lib data mapping lookupData matcher v hin
          (by intro s hs; rw [hstr] at hs; exact JsonVal.noConfusion hs)]
        exact hsome
      | obj fs =>
        rw [processObject_non_string lib data mapping lookupData matcher v hin
          (by intro s hs; rw [hstr] at hs; exact JsonVal.noConfusion hs)]
        exact hsome

/-- Witness for C9: enriching a record through `output_map = {role ↦ r}`
leaves the unrelated field `note` exactly as it was and keeps the
pre-existing `user` field present. -/
theorem processObject_frame_witness :
    lookupA (processObject netDemoLib
        [("user", JsonVal.str "x"), ("note", JsonVal.str "keep")]
        ⟨"user", "u", [("role", "r")]⟩ [[("u", "x"), ("role", "admin")]]
        ⟨"user", "u", "exact", false⟩) "note"
      = lookupA [("user", JsonVal.str "x"), ("note", JsonVal.str "keep")] "note"
    ∧ (lookupA (processObject netDemoLib
        [("user", JsonVal.str "x"), ("note", JsonVal.str "keep")]
        ⟨"user", "u", [("role", "r")]⟩ [[("u", "x"), ("role", "admin")]]
        ⟨"user", "u", "exact", false⟩) "user").isSome := by
  constructor
  · exact (processObject_frame netDemoLib
      [("user", JsonVal.str "x"), ("note", JsonVal.str "keep")]
      ⟨"user", "u", [("role", "r")]⟩ [[("u", "x"), ("role", "admin")]]
      ⟨"user", "u", "exact", false⟩).1 "note" (by decide)
  · exact (processObject_frame netDemoLib
      [("user", JsonVal.str "x"), ("note", JsonVal.str "keep")]
      ⟨"user", "u", [("role", "r")]⟩ [[("u", "x"), ("role", "admin")]]
      ⟨"user", "u", "exact", false⟩).2 "user" (by decide)

/-- **C4.** Under the cidr method a row matches exactly when the input
operand parses as an IP address, the row's operand parses as a CIDR
block, and the block contains the address; and whenever a row does not
match — in particular when either parse fails — the scan simply moves on
to the remaining rows: a cidr row can never produce a pattern error or
abort the lookup. -/
theorem findMatch_cidr {IP Net : Type} (lib : GoLib IP Net) (value : String)
    (matcher : Matcher) (hm : matcher.method = "cidr") :
    (∀ (row : Row) (lv : String), lookupA row matcher.lookupField = some lv →
      (rowMatchesB lib value matcher row = true ↔
        ∃ ip n, lib.netParseIP (compareOperands matcher value lv).1 = some ip
          ∧ lib.netParseCIDR (compareOperands matcher value lv).2 = some n
          ∧ lib.netContains n ip = true))
    ∧ (∀ (row : Row) (rest : List Row), rowMatchesB lib value matcher row = false →
        findMatch lib value (row :: rest) matcher = findMatch lib value rest matcher) := by
  constructor
  · intro row lv hl
    rw [rowMatchesB, hl, hm]
    simp only [evalMethod]
    norm_num
    cases hip : lib.netParseIP (compareOperands matcher value lv).1 with
    | none => simp [hip]
    | some ip =>
      cases hn : lib.netParseCIDR (compareOperands matcher value lv).2 with
      | none => simp
      | some n => cases hc : lib.netContains n ip <;> simp [hc]
  · intro row rest hfalse
    rw [findMatch]
    cases hl : lookupA row matcher.lookupField with
    | none => rfl
    | some lv =>
      cases he : evalMethod lib matcher.method (compareOperands matcher value lv).1
          (compareOperands matcher value lv).2 with
      | none =>
        exfalso
        rw [hm] at he
        simp [evalMethod] at he
      | some r =>
        cases r with
        | error e =>
          exfalso
          rw [hm] at he
          simp [evalMethod] at he
        | ok b =>
          cases b with
          | true =>
            exfalso
            have : rowMatchesB lib value matcher row = true := by
              rw [rowMatchesB, hl]
              simp [he]
            rw [this] at hfalse
            cases hfalse
          | false => simp [he]

/-- Witness for C4, on the spec's own examples: `"10.1.2.3"` matches the
row `{cidr_col: 10.0.0.0/8}`, `"11.1.2.3"` does not, and a row whose
pattern text is not a CIDR block is just skipped, the scan continuing to
the next row without an error. -/
theorem findMatch_cidr_witness :
    rowMatchesB netDemoLib "10.1.2.3" ⟨"client_ip", "cidr_col", "cidr", false⟩
      [("cidr_col", "10.0.0.0/8")] = true
    ∧ rowMatchesB netDemoLib "11.1.2.3" ⟨"client_ip", "cidr_col", "cidr", false⟩
      [("cidr_col", "10.0.0.0/8")] = false
    ∧ findMatch netDemoLib "10.1.2.3"
        [[("cidr_col", "not-a-cidr")], [("cidr_col", "10.0.0.0/8")]]
        ⟨"client_ip", "cidr_col", "cidr", false⟩
      = findMatch netDemoLib "10.1.2.3" [[("cidr_col", "10.0.0.0/8")]]
        ⟨"client_ip", "cidr_col", "cidr", false⟩ := by
  refine ⟨?_, by decide, ?_⟩
  · exact ((findMatch_cidr netDemoLib "10.1.2.3" ⟨"client_ip", "cidr_col", "cidr", false⟩
      rfl).1 [("cidr_col", "10.0.0.0/8")] "10.0.0.0/8" (by decide)).mpr
      ⟨167838211, (167772160, 8), by decide, by decide, by decide⟩
  · exact (findMatch_cidr netDemoLib "10.1.2.3" ⟨"client_ip", "cidr_col", "cidr", false⟩
      rfl).2 [("cidr_col", "not-a-cidr")] [[("cidr_col", "10.0.0.0/8")]] (by decide)

/-- **C6.** Under the wildcard or regex method, a row whose pattern is
malformed (the library call reports an error) is skipped and the scan
continues with the remaining rows: the lookup is not aborted, and a
matching later row is still returned. -/
theorem findMatch_bad_pattern {IP Net : Type} (lib : GoLib IP Net) (value : String)
    (matcher : Matcher) (row : Row) (rest : List Row) (lv : String) (e : String)
    (_hm : matcher.method = "wildcard" ∨ matcher.method = "regex")
    (hl : lookupA row matcher.lookupField = some lv)
    (he : evalMethod lib matcher.method (compareOperands matcher value lv).1
            (compareOperands matcher value lv).2 = some (Except.error e)) :
    findMatch lib value (row :: rest) matcher = findMatch lib value rest matcher
    ∧ ∀ r : Row, findMatch lib value rest matcher = some r →
        findMatch lib value (row :: rest) matcher = some r := by
  have hskip : findMatch lib value (row :: rest) matcher
      = findMatch lib value rest matcher := by
    rw [findMatch, hl]
    simp [he]
  exact ⟨hskip, fun r hr => hskip.trans hr⟩

/-- Witness for C6: a wildcard scan over a table whose first row carries
the malformed pattern `"["` still returns the matching second row. -/
theorem findMatch_bad_pattern_witness :
    findMatch netDemoLib "joe" [[("u", "[")], [("u", "joe")]]
      ⟨"host", "u", "wildcard", true⟩ = some [("u", "joe")] :=
  (findMatch_bad_pattern netDemoLib "joe" ⟨"host", "u", "wildcard", true⟩
    [("u", "[")] [[("u", "joe")]] "[" "syntax error in pattern"
    (Or.inl rfl) (by decide) rfl).2 [("u", "joe")] (by decide)

/-- **C8.** In line mode each blank line is skipped and each non-blank
line that fails to parse is dropped with one warning, producing no
output line and not aborting the run, while each line that parses is
emitted, in input order: the emitted lines are exactly the
`filterMap` of the parseable non-blank lines; in particular a 3-line
input whose second line is invalid JSON yields exactly the 2 output
lines of lines 1 and 3, in order, with one warning logged. -/
theorem processLines_drops_bad_lines
    (jp : String → Option Record) (ser : Record → String) (proc : Record → Record)
    (l1 l2 l3 : String) (r1 r3 : Record)
    (h1 : jp l1 = some r1) (h3 : jp l3 = some r3)
    (hb1 : goTrim l1.data ≠ []) (hb2 : goTrim l2.data ≠ []) (hb3 : goTrim l3.data ≠ [])
    (h2 : jp l2 = none) :
    (∀ lines : List String,
       (processLines jp ser proc lines).1
         = lines.filterMap (fun l => if goTrim l.data = [] then none
             else (jp l).map (fun d => ser (proc d))))
    ∧ processLines jp ser proc [l1, l2, l3] = ([ser (proc r1), ser (proc r3)], 1) := by
  constructor
  · intro lines
    induction lines with
    | nil => rfl
    | cons l rest ih =>
      by_cases hbl : goTrim l.data = []
      · simp [processLines, hbl, List.filterMap, ih]
      · cases hjp : jp l with
        | none => simp [processLines, hbl, hjp, List.filterMap, ih]
        | some d => simp [processLines, hbl, hjp, List.filterMap, ih]
  · simp [processLines, hb1, hb2, hb3, h1, h2, h3]

/-- Witness for C8: a concrete 3-line input whose middle line does not
parse yields the two outputs of lines 1 and 3 and one warning. -/
theorem processLines_drops_bad_lines_witness :
    processLines
      (fun l => if l = "\x7b\x7d" then some [] else none)
      (fun _ => "out") (fun r => r) ["\x7b\x7d", "oops", "\x7b\x7d"]
      = (["out", "out"], 1) :=
  (processLines_drops_bad_lines
    (fun l => if l = "\x7b\x7d" then some [] else none)
    (fun _ => "out") (fun r => r) "\x7b\x7d" "oops" "\x7b\x7d" [] []
    rfl rfl (by decide) (by decide) (by decide) rfl).2

/-- **C10.** On a standard input that is empty or all whitespace,
`processInput` returns before selecting a mode: the input is classified
as empty, no output is produced, no warning is logged, and the run ends
successfully (no fatal parse error). -/
theorem processInput_empty_input
    (jp : String → Option Record) (jpa : String → Option (List Record))
    (ser : Record → String) (serArr : List Record → String)
    (proc : Record → Record) (input : String)
    (h : ∀ c ∈ input.data, goIsSpace c = true) :
    processInput jp jpa ser serArr proc input = RunResult.ok [] 0
    ∧ detectMode input = InputMode.empty := by
  have htrim : goTrim input.data = [] := by
    unfold goTrim
    rw [List.dropWhile_eq_nil_iff.mpr h]
    rfl
  constructor
  · rw [processInput, htrim]
  · rw [detectMode, htrim]

/-- Witness for C10: a whitespace-only input produces no output, no
warning, and is classified as empty. -/
theorem processInput_empty_input_witness :
    processInput (fun _ => none) (fun _ => none) (fun _ => "") (fun _ => "")
      (fun r => r) "  \t\n  " = RunResult.ok [] 0
    ∧ detectMode "  \t\n  " = InputMode.empty :=
  processInput_empty_input (fun _ => none) (fun _ => none) (fun _ => "") (fun _ => "")
    (fun r => r) "  \t\n  " (by decide)

/-- Counterexample to C3 as stated: the parsed rule carries no keep-all
flag, and an explicitly-empty OUTPUT clause is not distinct from an
omitted one — `"a as b OUTPUT ,"` parses to exactly the same `Mapping`
(empty output table) as `"a as b"`, and enrichment with that rule does
add fields (all fields of the match result), instead of adding none. -/
theorem parseMapping_empty_output_counterexample :
    parseMapping "a as b OUTPUT ," = parseMapping "a as b"
    ∧ parseMapping "a as b OUTPUT ," = some ⟨"a", "b", []⟩
    ∧ processObject netDemoLib [("a", JsonVal.str "x")] ⟨"a", "b", []⟩
        [[("b", "x"), ("role", "Manager")]] ⟨"a", "b", "exact", false⟩
      = [("a", JsonVal.str "x"), ("b", JsonVal.str "x"), ("role", JsonVal.str "Manager")] :=
  ⟨rfl, rfl, rfl⟩

/-- **C3 (amended).** The parsed `Mapping` has no keep-all flag;
enrichment treats an empty output table as keep-all.  A rule with no
OUTPUT clause and a rule with an explicitly-empty OUTPUT clause parse to
the same `Mapping` with an empty output table, and that rule adds every
field of the match result during enrichment. -/
theorem parseMapping_empty_output_same_as_absent :
    parseMapping "a as b" = some ⟨"a", "b", []⟩
    ∧ parseMapping "a as b OUTPUT ," = some ⟨"a", "b", []⟩
    ∧ (∀ (data : Record) (result : Row) (k v : String),
        keysNodup result → (k, v) ∈ result →
        lookupA (applyLookupResult ⟨"a", "b", []⟩ data result) k
          = some (JsonVal.str v)) := by
  refine ⟨rfl, rfl, ?_⟩
  intro data result k v hnd hmem
  exact applyLookupResult_keepall ⟨"a", "b", []⟩ rfl data result k v hnd hmem

/-- Witness for the amended C3: the empty-output-table rule adds the
matched row's `role` field verbatim. -/
theorem parseMapping_empty_output_same_as_absent_witness :
    lookupA (applyLookupResult ⟨"a", "b", []⟩ [] [("role", "Manager")]) "role"
      = some (JsonVal.str "Manager") :=
  parseMapping_empty_output_same_as_absent.2.2 [] [("role", "Manager")]
    "role" "Manager" (by decide) (by decide)

/-! ### Case folding is invisible to the IPv4 parsers

Lowercasing maps no character into a digit, a dot or a slash, and fixes
every digit, so `parseIPv4` and `parseCIDRv4` give the same answer on
the folded and the unfolded text. -/

theorem char_toNat_ofNat (n : Nat) (h : n.isValidChar) : (Char.ofNat n).toNat = n := by
  rw [Char.ofNat, dif_pos h]
  rfl

theorem char_toNat_inj {a b : Char} (h : a.toNat = b.toNat) : a = b := by
  apply Char.ext
  exact UInt32.toNat.inj h

theorem goToLowerChar_toNat (c : Char) :
    (goToLowerChar c).toNat
      = if 65 ≤ c.toNat ∧ c.toNat ≤ 90 then c.toNat + 32 else c.toNat := by
  show (if c.toNat ≥ 65 ∧ c.toNat ≤ 90 then Char.ofNat (c.toNat + 32) else c).toNat
    = if 65 ≤ c.toNat ∧ c.toNat ≤ 90 then c.toNat + 32 else c.toNat
  split_ifs with h
  · exact char_toNat_ofNat (c.toNat + 32) (Or.inl (by omega))
  · rfl

theorem goToLowerChar_isDigit (c : Char) : isDigitC (goToLowerChar c) = isDigitC c := by
  unfold isDigitC
  rw [goToLowerChar_toNat]
  split_ifs with h
  · have h1 : ¬ (c.toNat + 32 ≤ 57) := by omega
    have h2 : ¬ (c.toNat ≤ 57) := by omega
    simp [h1, h2]
  · rfl

theorem goToLowerChar_digit_fix (c : Char) (h : isDigitC c = true) :
    goToLowerChar c = c := by
  unfold isDigitC at h
  simp only [Bool.and_eq_true, decide_eq_true_eq] at h
  show (if c.toNat ≥ 65 ∧ c.toNat ≤ 90 then Char.ofNat (c.toNat + 32) else c) = c
  split_ifs with h2
  · exfalso
    omega
  · rfl

theorem goToLowerChar_eq_iff (c d : Char) (hd : ¬ (65 ≤ d.toNat ∧ d.toNat ≤ 122)) :
    goToLowerChar c = d ↔ c = d := by
  constructor
  · intro h
    have ht : (goToLowerChar c).toNat = d.toNat := by rw [h]
    rw [goToLowerChar_toNat] at ht
    split_ifs at ht with h2
    · omega
    · exact char_toNat_inj ht
  · intro h
    subst h
    have hng : ¬ (65 ≤ c.toNat ∧ c.toNat ≤ 90) := fun hc => hd ⟨hc.1, by omega⟩
    apply char_toNat_inj
    rw [goToLowerChar_toNat, if_neg hng]

theorem goToLowerChar_dot (c : Char) : (goToLowerChar c = '.') ↔ c = '.' :=
  goToLowerChar_eq_iff c '.' (by decide)

theorem goToLowerChar_isSlash (c : Char) : isSlash (goToLowerChar c) = isSlash c := by
  unfold isSlash
  exact decide_eq_decide.mpr (goToLowerChar_eq_iff c '/' (by decide))

theorem takeWhile_map_comm (p : Char → Bool) (f : Char → Char)
    (hp : ∀ c, p (f c) = p c) (cs : List Char) :
    (cs.map f).takeWhile p = (cs.takeWhile p).map f := by
  have hpf : p ∘ f = p := funext hp
  rw [List.takeWhile_map, hpf]

theorem dropWhile_map_comm (p : Char → Bool) (f : Char → Char)
    (hp : ∀ c, p (f c) = p c) (cs : List Char) :
    (cs.map f).dropWhile p = (cs.dropWhile p).map f := by
  have hpf : p ∘ f = p := funext hp
  rw [List.dropWhile_map, hpf]

theorem takeWhile_digit_map (cs : List Char) :
    (cs.map goToLowerChar).takeWhile isDigitC = cs.takeWhile isDigitC := by
  rw [takeWhile_map_comm isDigitC goToLowerChar goToLowerChar_isDigit]
  exact List.map_congr_left (fun c hc =>
    goToLowerChar_digit_fix c (List.mem_takeWhile_imp hc)) |>.trans (List.map_id _)

theorem dropWhile_digit_map (cs : List Char) :
    (cs.map goToLowerChar).dropWhile isDigitC
      = (cs.dropWhile isDigitC).map goToLowerChar :=
  dropWhile_map_comm isDigitC goToLowerChar goToLowerChar_isDigit cs

theorem parseOctet_map (cs : List Char) :
    parseOctet (cs.map goToLowerChar)
      = (parseOctet cs).map (fun p => (p.1, p.2.map goToLowerChar)) := by
  unfold parseOctet
  rw [takeWhile_digit_map, dropWhile_digit_map]
  split_ifs <;> rfl

theorem expectDot_map (cs : List Char) :
    expectDot (cs.map goToLowerChar) = (expectDot cs).map (List.map goToLowerChar) := by
  cases cs with
  | nil => rfl
  | cons c r =>
    by_cases h : c = '.'
    · subst h; rfl
    · have hl : ¬ goToLowerChar c = '.' := fun hh => h ((goToLowerChar_dot c).mp hh)
      simp [expectDot, h, hl]

theorem parseIPv4_map (cs : List Char) :
    parseIPv4 (cs.map goToLowerChar) = parseIPv4 cs := by
  unfold parseIPv4
  rw [parseOctet_map]
  cases parseOctet cs with
  | none => rfl
  | some p1 =>
    obtain ⟨a, r1⟩ := p1
    simp only [Option.map_some']
    rw [expectDot_map]
    cases expectDot r1 with
    | none => rfl
    | some r2 =>
      simp only [Option.map_some']
      rw [parseOctet_map]
      cases parseOctet r2 with
      | none => rfl
      | some p2 =>
        obtain ⟨b, r3⟩ := p2
        simp only [Option.map_some']
        rw [expectDot_map]
        cases expectDot r3 with
        | none => rfl
        | some r4 =>
          simp only [Option.map_some']
          rw [parseOctet_map]
          cases parseOctet r4 with
          | none => rfl
          | some p3 =>
            obtain ⟨c, r5⟩ := p3
            simp only [Option.map_some']
            rw [expectDot_map]
            cases expectDot r5 with
            | none => rfl
            | some r6 =>
              simp only [Option.map_some']
              rw [parseOctet_map]
              cases parseOctet r6 with
              | none => rfl
              | some p4 =>
                obtain ⟨d, r7⟩ := p4
                simp only [Option.map_some']
                by_cases h7 : r7 = []
                · simp [h7]
                · simp [h7, List.map_eq_nil_iff]

theorem parseMaskLen_map (cs : List Char) :
    parseMaskLen (cs.map goToLowerChar) = parseMaskLen cs := by
  unfold parseMaskLen
  rw [takeWhile_digit_map, dropWhile_digit_map]
  by_cases h1 : cs.takeWhile isDigitC = []
  · simp [h1]
  · by_cases h2 : cs.dropWhile isDigitC = []
    · simp [h1, h2]
    · simp [h1, h2, List.map_eq_nil_iff]

theorem parseCIDRv4_map (cs : List Char) :
    parseCIDRv4 (cs.map goToLowerChar) = parseCIDRv4 cs := by
  have hns : ∀ c, (!isSlash (goToLowerChar c)) = !isSlash c := fun c => by
    rw [goToLowerChar_isSlash]
  unfold parseCIDRv4
  rw [dropWhile_map_comm _ goToLowerChar hns, takeWhile_map_comm _ goToLowerChar hns,
    parseIPv4_map]
  cases cs.dropWhile (fun c => !isSlash c) with
  | nil => rfl
  | cons c ms =>
    simp only [List.map_cons]
    cases parseIPv4 (cs.takeWhile fun c => !isSlash c) with
    | none => rfl
    | some a =>
      simp only []
      rw [parseMaskLen_map]

/-- The `switch` always takes the cidr branch on method `"cidr"`. -/
theorem evalMethod_cidr {IP Net : Type} (lib : GoLib IP Net) (cv clv : String) :
    evalMethod lib "cidr" cv clv
      = some (Except.ok (match lib.netParseIP cv with
          | none => false
          | some ip =>
            match lib.netParseCIDR clv with
            | none => false
            | some n => lib.netContains n ip)) := by
  simp [evalMethod]

/-- The cidr evaluation of the IPv4 model gives the same verdict on the
folded operands as on the originals. -/
theorem evalMethod_cidr_fold (value lv : String) :
    evalMethod netDemoLib "cidr" (goToLower value) (goToLower lv)
      = evalMethod netDemoLib "cidr" value lv := by
  rw [evalMethod_cidr, evalMethod_cidr]
  have h1 : netDemoLib.netParseIP (goToLower value)
      = netDemoLib.netParseIP value := parseIPv4_map value.data
  have h2 : netDemoLib.netParseCIDR (goToLower lv)
      = netDemoLib.netParseCIDR lv := parseCIDRv4_map lv.data
  rw [h1, h2]

/-- Folding never changes a cidr lookup against the IPv4 model: the
whole scan gives the same row with `case_sensitive` false as with
`case_sensitive` true (no folding at all). -/
theorem findMatch_cidr_fold_invariant (value : String) (data : List Row)
    (fi fl : String) (fc : Bool) :
    findMatch netDemoLib value data ⟨fi, fl, "cidr", fc⟩
      = findMatch netDemoLib value data ⟨fi, fl, "cidr", true⟩ := by
  cases fc with
  | true => rfl
  | false =>
    induction data with
    | nil => rfl
    | cons row rest ih =>
      rw [findMatch, findMatch]
      cases hl : lookupA row fl with
      | none => exact ih
      | some lv =>
        simp only [compareOperands, Bool.false_eq_true, if_false, reduceIte]
        rw [evalMethod_cidr_fold]
        cases evalMethod netDemoLib "cidr" value lv with
        | none => rfl
        | some r =>
          cases r with
          | error e => exact ih
          | ok b =>
            cases b with
            | true => rfl
            | false => exact ih

/-- Counterexample to C5 as stated: for a cidr matcher with
`case_sensitive` false the operands handed to the cidr branch are the
lowercased strings, not the texts as given — `findMatch` computes
`compareOperands` before the method switch, and on the input
`"10.0.0.A"` the cidr branch receives `"10.0.0.a"`. -/
theorem compareOperands_cidr_folds :
    compareOperands ⟨"client_ip", "cidr_col", "cidr", false⟩ "10.0.0.A" "10.0.0.0/8"
      = ("10.0.0.a", "10.0.0.0/8")
    ∧ compareOperands ⟨"client_ip", "cidr_col", "cidr", false⟩ "10.0.0.A" "10.0.0.0/8"
      ≠ ("10.0.0.A", "10.0.0.0/8") :=
  ⟨rfl, by decide⟩

/-- **C5 (amended).** Case folding (lowercasing both operands) is
applied exactly when `case_sensitive` is false, uniformly for every
method including cidr; for the cidr method the folding can never change
the outcome, because IP and CIDR text parsing is invariant under
lowercasing — against the IPv4 model the whole scan returns the same row
as with no folding at all. -/
theorem compareOperands_folding :
    (∀ (matcher : Matcher) (v lv : String),
       compareOperands matcher v lv
         = if matcher.caseSensitive then (v, lv) else (goToLower v, goToLower lv))
    ∧ (∀ (value : String) (data : List Row) (fi fl : String) (fc : Bool),
        findMatch netDemoLib value data ⟨fi, fl, "cidr", fc⟩
          = findMatch netDemoLib value data ⟨fi, fl, "cidr", true⟩) :=
  ⟨fun _ _ _ => rfl,
   fun value data fi fl fc => findMatch_cidr_fold_invariant value data fi fl fc⟩

/-- Witness for the amended C5: the spec's cidr example gives the same
(successful) match whether `case_sensitive` is false or true. -/
theorem compareOperands_folding_witness :
    findMatch netDemoLib "10.1.2.3" [[("cidr_col", "10.0.0.0/8")]]
      ⟨"client_ip", "cidr_col", "cidr", false⟩
      = findMatch netDemoLib "10.1.2.3" [[("cidr_col", "10.0.0.0/8")]]
        ⟨"client_ip", "cidr_col", "cidr", true⟩
    ∧ findMatch netDemoLib "10.1.2.3" [[("cidr_col", "10.0.0.0/8")]]
        ⟨"client_ip", "cidr_col", "cidr", false⟩
      = some [("cidr_col", "10.0.0.0/8")] :=
  ⟨compareOperands_folding.2 "10.1.2.3" [[("cidr_col", "10.0.0.0/8")]]
    "client_ip" "cidr_col" false, by decide⟩

end LookupGo
